import Mathlib

/-!
Shallow embedding of `src/Copyright_Violation.py`, a command-line utility
that downloads audio from video URLs, transcodes it to mp3 and optionally
splits each track into instrument/vocal stems by shelling out to an external
separation tool (demucs).  The program itself is sequential orchestration
plus filesystem bookkeeping; we model

  * the filesystem as a finite list of (path, kind) entries, a path being
    its list of components relative to an abstract root;
  * each external-tool interaction as an event in a trace (the external
    engines themselves are opaque collaborators: the separation tool's exit
    status is a parameter `exitOk`, and the download engine's effect is
    modelled by taking the filesystem state observed after its call as an
    input);
  * `run_demucs`, `sweep_directories`, `download_audio` and `main` as pure
    functions from their inputs (flags, tool locations, filesystem
    snapshots) to the trace of events they produce.
-/

namespace CV

/-- A filesystem path, as its list of name components. -/
abbrev Path := List String

/-- Kind of a directory entry: a regular file or a directory. -/
inductive FType where
  | file : FType
  | dir : FType
deriving DecidableEq, Repr

/-- An abstract filesystem: the finite list of entries present on disk. -/
structure FS where
  entries : List (Path × FType)
deriving DecidableEq, Repr

/-- Python `Path.exists()`: some entry (of any kind) lives at `p`. -/
def FS.existsPath (fs : FS) (p : Path) : Bool :=
  fs.entries.any (fun e => e.1 == p)

/-- An entry lives at `p` and is a regular file. -/
def FS.isFileAt (fs : FS) (p : Path) : Bool :=
  fs.entries.any (fun e => e.1 == p && e.2 == FType.file)

/-- Final component of a path (Python `Path.name`; `""` for the root). -/
def lastName (p : Path) : String :=
  p.getLastD ""

/-- Parent directory of a path (Python `Path.parent` up to root handling). -/
def parentOf (p : Path) : Path :=
  p.dropLast

/-- Whether `p` is an immediate child of `dir`. -/
def isChildOf (p dir : Path) : Bool :=
  p.length == dir.length + 1 && p.take dir.length == dir

/-- Python `Path.stem`: the final component without its last suffix.  A dot
at position 0 or at the very end does not start a suffix (pathlib's
`0 < i < len(name) - 1` rule). -/
def pyStem (name : String) : String :=
  let cs := name.toList
  match (cs.enum.filter (fun q => q.2 == '.')).getLastD (0, ' ') with
  | (i, c) =>
    if c == '.' && decide (0 < i) && decide (i < cs.length - 1) then
      String.mk (cs.take i)
    else
      name

/-- Whether a name matches the glob pattern `*.mp3` (fnmatch semantics:
any name ending in `.mp3`). -/
def matchesMp3 (name : String) : Bool :=
  let cs := name.toList
  cs.drop (cs.length - 4) == ".mp3".toList

/-- Python `folder.glob("*.mp3")`: the entries (of any kind — glob matches
names, it does not filter by file type) directly inside `dir` whose name
ends in `.mp3`, in filesystem-entry order. -/
def globMp3 (fs : FS) (dir : Path) : List Path :=
  fs.entries.filterMap
    (fun e => if isChildOf e.1 dir && matchesMp3 (lastName e.1) then some e.1 else none)

/-- The `base.iterdir()` loop restricted by `folder.is_dir()`: the
immediate child directories of `base`, in filesystem-entry order. -/
def dirChildren (fs : FS) (base : Path) : List Path :=
  fs.entries.filterMap
    (fun e => if isChildOf e.1 base && e.2 == FType.dir then some e.1 else none)

/-- The directory where stems of `track` are written:
`<container>/<model_name>/<track stem name>/`
(`folder / model_name / mp3.stem` in the source). -/
def targetDir (container : Path) (model_name : String) (track : Path) : Path :=
  container ++ [model_name, pyStem (lastName track)]

/-- The completeness check both `sweep_directories` and `main` perform:
`target_dir.exists() and all((target_dir / s).exists() for s in stems)`
(a track is queued for splitting exactly when this is `false`).  Note the
source uses `Path.exists`, which is true for an entry of any kind. -/
def is_complete (fs : FS) (container : Path) (model_name : String)
    (stems : List String) (track : Path) : Bool :=
  let td := targetDir container model_name track
  fs.existsPath td && stems.all (fun s => fs.existsPath (td ++ [s]))

/-- Following the spec's words (for comparison with `is_complete`): every
name in the stem set exists as a regular file directly under the computed
target directory. -/
def completeAsRegularFiles (fs : FS) (container : Path) (model_name : String)
    (stems : List String) (track : Path) : Bool :=
  let td := targetDir container model_name track
  stems.all (fun s => fs.isFileAt (td ++ [s]))

/-- Following the spec's words (for comparison with `download_audio`): the
regular files with the `.mp3` extension directly inside `dir`. -/
def mp3FilesIn (fs : FS) (dir : Path) : List Path :=
  fs.entries.filterMap
    (fun e =>
      if isChildOf e.1 dir && matchesMp3 (lastName e.1) && e.2 == FType.file then
        some e.1
      else none)

/-- The six-stem output names (`STEMS_6` in the source). -/
def STEMS_6 : List String :=
  ["vocals.mp3", "drums.mp3", "bass.mp3", "guitar.mp3", "piano.mp3", "other.mp3"]

/-- The four-stem output names (`STEMS_4` in the source). -/
def STEMS_4 : List String :=
  ["vocals.mp3", "drums.mp3", "bass.mp3", "other.mp3"]

/-- StemSet/ModelName selection from the `--stems` flag:
`if args.stems == 6: STEMS_6, "htdemucs_6s" else: STEMS_4, "htdemucs"`. -/
def pickModel (stemsFlag : Nat) : List String × String :=
  if stemsFlag == 6 then (STEMS_6, "htdemucs_6s") else (STEMS_4, "htdemucs")

/-- Device selection: `"cpu" if args.cpu or not HAS_CUDA else "cuda"`. -/
def pickDevice (cpu hasCuda : Bool) : String :=
  if cpu || !hasCuda then "cpu" else "cuda"

/-- Python `str(Path)` on a relative path: components joined by `/`. -/
def pathStr (p : Path) : String :=
  String.intercalate "/" p

/-- One observable step of the run: a log line, an invocation of the
separation tool (`run_subprocess` on the built command, recorded together
with the track it is for), the caught per-track failure log, the external
download call, or the final file-manager reveal. -/
inductive Event where
  | info (msg : String) : Event
  | warn (msg : String) : Event
  | error (msg : String) : Event
  | demucsRun (track : Path) (cmd : List String) : Event
  | demucsFail (track : Path) : Event
  | downloadCall (urls : List String) (outDir : Path) : Event
  | openFolder (p : Path) : Event
deriving DecidableEq, Repr

/-- The command line `run_demucs` builds for one track:
`[*demucs_cmd, str(mp3), "--device", device, "--segment", "7", "-n",
model_name, "--mp3", "--filename", "{track}/{stem}.{ext}", "--out",
str(out_dir)]`. -/
def mkDemucsCmd (demucs_cmd : List String) (mp3 : Path) (device : String)
    (model_name : String) (out_dir : Path) : List String :=
  demucs_cmd ++ [pathStr mp3, "--device", device, "--segment", "7", "-n",
    model_name, "--mp3", "--filename", "{track}/{stem}.{ext}", "--out",
    pathStr out_dir]

/-- Body of the `for mp3 in mp3_files` loop of `run_demucs`: log the name,
invoke the tool, and on a non-zero exit catch the `CalledProcessError` and
log one error for the track.  `exitOk cmd` abstracts the external tool's
exit status for that command. -/
def demucsStep (exitOk : List String → Bool) (out_dir : Path)
    (demucs_cmd : List String) (device : String) (model_name : String)
    (mp3 : Path) : List Event :=
  let cmd := mkDemucsCmd demucs_cmd mp3 device model_name out_dir
  Event.info (" - " ++ lastName mp3) :: Event.demucsRun mp3 cmd ::
    (if exitOk cmd then [] else [Event.demucsFail mp3])

/-- The trace of `run_demucs(mp3_files, out_dir, demucs_cmd, device,
model_name)`: a header log, then the per-track loop in input order. -/
def run_demucs (exitOk : List String → Bool) (mp3_files : List Path)
    (out_dir : Path) (demucs_cmd : List String) (device : String)
    (model_name : String) : List Event :=
  Event.info ("Demucs: Processing " ++ toString mp3_files.length ++
      " file(s) with model " ++ model_name ++ " on " ++ device) ::
    (mp3_files.map (demucsStep exitOk out_dir demucs_cmd device model_name)).flatten

/-- Body of the `for folder in base.iterdir()` loop of `sweep_directories`
for one child directory: list its `*.mp3` entries, skip silently when there
are none, otherwise split the ones whose completeness check fails. -/
def sweepFolder (fs : FS) (exitOk : List String → Bool)
    (demucs_cmd : List String) (device : String) (stems : List String)
    (model_name : String) (folder : Path) : List Event :=
  let mp3s := globMp3 fs folder
  if mp3s.isEmpty then []
  else
    let pending := mp3s.filter (fun m => !is_complete fs folder model_name stems m)
    if pending.isEmpty then
      [Event.info ("Folder " ++ lastName folder ++ ": all stems present")]
    else
      Event.info ("Folder " ++ lastName folder ++ ": " ++
          toString pending.length ++ " files to split") ::
        run_demucs exitOk pending folder demucs_cmd device model_name

/-- The trace of `sweep_directories(base, demucs_cmd, device, stems,
model_name)` on filesystem snapshot `fs`: the immediate child directories
of `base`, each handled by `sweepFolder`. -/
def sweep_directories (fs : FS) (exitOk : List String → Bool) (base : Path)
    (demucs_cmd : List String) (device : String) (stems : List String)
    (model_name : String) : List Event :=
  ((dirChildren fs base).map
    (sweepFolder fs exitOk demucs_cmd device stems model_name)).flatten

/-- The value `download_audio(urls, out_dir, ffmpeg_path)` returns:
`list(out_dir.glob("*.mp3"))` on the filesystem as it stands after the
external `ydl.download(urls)` call (that call is an opaque collaborator;
`fsAfter` is the filesystem state it leaves behind).  `urls` and the
ffmpeg location only feed the external engine's options. -/
def download_audio (fsAfter : FS) (urls : List String) (out_dir : Path) :
    List Path :=
  globMp3 fsAfter out_dir

/-- The parsed command-line arguments (`argparse` restricts `stems` to the
choices 4 and 6, with default 6). -/
structure Args where
  urls : List String
  sweep : Bool
  split : Bool
  cpu : Bool
  stems : Nat

/-- The ambient state a run observes: the working directory, where (if
anywhere) `shutil.which` finds ffmpeg and demucs, `sys.executable`,
`torch.cuda.is_available()`, the filesystem snapshot the sweep reads
(`fs0`), the snapshot the post-download inventory and split checks read
(`fsDl`), and the separation tool's exit behaviour. -/
structure Env where
  cwd : Path
  ffmpeg : Option Path
  demucs : Option Path
  pythonExe : String
  hasCuda : Bool
  fs0 : FS
  fsDl : FS
  exitOk : List String → Bool

/-- The invocation form used for the separation tool: the resolved binary
when present, else the fallback `[sys.executable, "-m", "demucs"]`. -/
def demucsCmdOf (env : Env) : List String :=
  match env.demucs with
  | some d => [pathStr d]
  | none => [env.pythonExe, "-m", "demucs"]

/-- The "only-split-if-missing" block of `main` (given the downloaded list
`mp3_list`): log a skip line for each track whose completeness check holds,
and run the separation tool on the non-complete subset when it is
non-empty. -/
def splitStep (fs : FS) (exitOk : List String → Bool) (download_dir : Path)
    (demucs_cmd : List String) (device : String) (stems : List String)
    (model_name : String) (mp3_list : List Path) : List Event :=
  let skipLogs := mp3_list.filterMap
    (fun m =>
      if is_complete fs download_dir model_name stems m then
        some (Event.info ("Skipping " ++ lastName m ++ " (all " ++
          toString stems.length ++ " stems already present)"))
      else none)
  let to_split := mp3_list.filter
    (fun m => !is_complete fs download_dir model_name stems m)
  skipLogs ++
    (if to_split.isEmpty then []
     else run_demucs exitOk to_split download_dir demucs_cmd device model_name)

/-- The trace of `main()` paired with the process exit status.  Mirrors the
source's linear flow: resolve ffmpeg (fatal when absent), resolve demucs
(fallback when absent), pick device and StemSet/ModelName pair, optional
sweep over `cwd`, ensure `cwd/downloads`, download, optional filtered
split, reveal the first track's folder. -/
def main (args : Args) (env : Env) : Nat × List Event :=
  match env.ffmpeg with
  | none =>
    (1, [Event.warn "ffmpeg not found in PATH",
         Event.error "ffmpeg is required. Please install ffmpeg."])
  | some _ =>
    let demucs_cmd := demucsCmdOf env
    let fbLog : List Event :=
      match env.demucs with
      | some _ => []
      | none =>
        [Event.warn "demucs not found in PATH",
         Event.info ("Using fallback for Demucs: " ++ String.intercalate " " demucs_cmd)]
    let device := pickDevice args.cpu env.hasCuda
    let devLog : List Event :=
      [Event.info (if device == "cuda" then "CUDA available: using GPU for Demucs"
          else "CUDA unavailable or forced CPU: using CPU for Demucs")]
    let stems := (pickModel args.stems).1
    let model_name := (pickModel args.stems).2
    let sweepTr :=
      if args.sweep then
        sweep_directories env.fs0 env.exitOk env.cwd demucs_cmd device stems model_name
      else []
    let download_dir := env.cwd ++ ["downloads"]
    let mp3_list := download_audio env.fsDl args.urls download_dir
    let splitTr :=
      if args.split && !mp3_list.isEmpty then
        splitStep env.fsDl env.exitOk download_dir demucs_cmd device stems model_name mp3_list
      else []
    let openTr :=
      if mp3_list.isEmpty then [] else [Event.openFolder (parentOf (mp3_list.headD []))]
    (0, fbLog ++ devLog ++ sweepTr ++ [Event.downloadCall args.urls download_dir] ++
      splitTr ++ openTr ++ [Event.info "Processing complete."])

/-- The separation-tool invocations in a trace, each with its track. -/
def runsOf (tr : List Event) : List (Path × List String) :=
  tr.filterMap (fun e => match e with | Event.demucsRun t c => some (t, c) | _ => none)

/-- The tracks the separation tool is invoked on, in order. -/
def runTracks (tr : List Event) : List Path :=
  (runsOf tr).map Prod.fst

/-- The tracks for which a caught separation failure was logged. -/
def failsOf (tr : List Event) : List Path :=
  tr.filterMap (fun e => match e with | Event.demucsFail t => some t | _ => none)

/-- Whether the trace reaches the external download call. -/
def hasDownloadCall (tr : List Event) : Bool :=
  tr.any (fun e => match e with | Event.downloadCall _ _ => true | _ => false)

theorem runsOf_append (a b : List Event) : runsOf (a ++ b) = runsOf a ++ runsOf b :=
  List.filterMap_append a b _

theorem failsOf_append (a b : List Event) : failsOf (a ++ b) = failsOf a ++ failsOf b :=
  List.filterMap_append a b _

theorem runsOf_demucsStep (exitOk : List String → Bool) (out_dir : Path)
    (demucs_cmd : List String) (device model_name : String) (mp3 : Path) :
    runsOf (demucsStep exitOk out_dir demucs_cmd device model_name mp3) =
      [(mp3, mkDemucsCmd demucs_cmd mp3 device model_name out_dir)] := by
  unfold demucsStep
  cases exitOk (mkDemucsCmd demucs_cmd mp3 device model_name out_dir) <;>
    simp [runsOf]

theorem failsOf_demucsStep (exitOk : List String → Bool) (out_dir : Path)
    (demucs_cmd : List String) (device model_name : String) (mp3 : Path) :
    failsOf (demucsStep exitOk out_dir demucs_cmd device model_name mp3) =
      (if exitOk (mkDemucsCmd demucs_cmd mp3 device model_name out_dir) then []
       else [mp3]) := by
  unfold demucsStep
  cases h : exitOk (mkDemucsCmd demucs_cmd mp3 device model_name out_dir) <;>
    simp [failsOf, h]

theorem runsOf_run_demucs (exitOk : List String → Bool) (mp3_files : List Path)
    (out_dir : Path) (demucs_cmd : List String) (device model_name : String) :
    runsOf (run_demucs exitOk mp3_files out_dir demucs_cmd device model_name) =
      mp3_files.map
        (fun m => (m, mkDemucsCmd demucs_cmd m device model_name out_dir)) := by
  unfold run_demucs
  rw [show ∀ msg l, runsOf (Event.info msg :: l) = runsOf l from fun _ _ => rfl]
  induction mp3_files with
  | nil => rfl
  | cons m rest ih =>
    simp only [List.map_cons, List.flatten_cons, runsOf_append, ih,
      runsOf_demucsStep, List.singleton_append]

theorem failsOf_run_demucs (exitOk : List String → Bool) (mp3_files : List Path)
    (out_dir : Path) (demucs_cmd : List String) (device model_name : String) :
    failsOf (run_demucs exitOk mp3_files out_dir demucs_cmd device model_name) =
      mp3_files.filter
        (fun m => !exitOk (mkDemucsCmd demucs_cmd m device model_name out_dir)) := by
  unfold run_demucs
  rw [show ∀ msg l, failsOf (Event.info msg :: l) = failsOf l from fun _ _ => rfl]
  induction mp3_files with
  | nil => rfl
  | cons m rest ih =>
    simp only [List.map_cons, List.flatten_cons, failsOf_append, ih,
      failsOf_demucsStep, List.filter_cons]
    cases h : exitOk (mkDemucsCmd demucs_cmd m device model_name out_dir) <;> simp [h]

theorem runTracks_run_demucs (exitOk : List String → Bool) (mp3_files : List Path)
    (out_dir : Path) (demucs_cmd : List String) (device model_name : String) :
    runTracks (run_demucs exitOk mp3_files out_dir demucs_cmd device model_name) =
      mp3_files := by
  unfold runTracks
  rw [runsOf_run_demucs]
  induction mp3_files with
  | nil => rfl
  | cons m rest ih => rw [List.map_cons, List.map_cons, ih]

/-- Claim C9: for an empty input list the Stem Separation Invoker performs
zero external-tool invocations and logs no error; in general it invokes
the tool exactly once per input track, in input order. -/
theorem C9_invoker_once_per_track_in_order (exitOk : List String → Bool)
    (out_dir : Path) (demucs_cmd : List String) (device model_name : String) :
    runsOf (run_demucs exitOk [] out_dir demucs_cmd device model_name) = [] ∧
    failsOf (run_demucs exitOk [] out_dir demucs_cmd device model_name) = [] ∧
    ∀ mp3_files : List Path,
      runsOf (run_demucs exitOk mp3_files out_dir demucs_cmd device model_name) =
        mp3_files.map
          (fun m => (m, mkDemucsCmd demucs_cmd m device model_name out_dir)) := by
  refine ⟨?_, ?_, fun files => runsOf_run_demucs exitOk files out_dir demucs_cmd device model_name⟩
  · rw [runsOf_run_demucs]; rfl
  · rw [failsOf_run_demucs]; rfl

theorem count_one_of_nodup_mem {α : Type _} [BEq α] [LawfulBEq α] {a : α}
    {l : List α} (hn : l.Nodup) (ha : a ∈ l) : l.count a = 1 := by
  induction l with
  | nil => simp at ha
  | cons x xs ih =>
    have hx : x ∉ xs := (List.nodup_cons.mp hn).1
    have hxs : xs.Nodup := (List.nodup_cons.mp hn).2
    rcases List.mem_cons.mp ha with h | h
    · subst h
      have h0 : xs.count a = 0 := List.count_eq_zero.mpr hx
      simp [List.count_cons, h0]
    · have hne : (a == x) = false := by
        refine beq_eq_false_iff_ne.mpr ?_
        intro he
        rw [he] at h
        exact hx h
      have h1 := ih hxs h
      have hxa : x ≠ a := by
        intro he
        rw [he] at hx
        exact hx h
      simp [List.count_cons, hne, h1, hxa]

theorem is_complete_iff (fs : FS) (container : Path) (model_name : String)
    (stems : List String) (track : Path) :
    is_complete fs container model_name stems track = true ↔
      (fs.existsPath (targetDir container model_name track) = true ∧
       ∀ s ∈ stems,
         fs.existsPath (targetDir container model_name track ++ [s]) = true) := by
  simp [is_complete, Bool.and_eq_true, List.all_eq_true]

theorem mem_globMp3 {fs : FS} {dir p : Path} :
    p ∈ globMp3 fs dir ↔
      ∃ k, (p, k) ∈ fs.entries ∧ isChildOf p dir = true ∧
        matchesMp3 (lastName p) = true := by
  constructor
  · intro h
    rcases List.mem_filterMap.mp h with ⟨e, he, hcond⟩
    split at hcond
    case isTrue hb =>
      cases hcond
      exact ⟨e.2, he, Bool.and_elim_left hb, Bool.and_elim_right hb⟩
    case isFalse => cases hcond
  · intro ⟨k, hk, hchild, hmatch⟩
    refine List.mem_filterMap.mpr ⟨(p, k), hk, ?_⟩
    have hb : (isChildOf p dir && matchesMp3 (lastName p)) = true := by
      simp [hchild, hmatch]
    rw [if_pos hb]

theorem mem_dirChildren {fs : FS} {base p : Path} (h : p ∈ dirChildren fs base) :
    isChildOf p base = true ∧ (p, FType.dir) ∈ fs.entries := by
  rcases List.mem_filterMap.mp h with ⟨e, he, hcond⟩
  split at hcond
  case isTrue hb =>
    have hchild := Bool.and_elim_left hb
    have hdir := Bool.and_elim_right hb
    cases hcond
    have he2 : e.2 = FType.dir := by
      cases e2 : e.2 <;> rw [e2] at hdir <;> first | rfl | cases hdir
    refine ⟨hchild, ?_⟩
    have hpe : (e.1, FType.dir) = e := by
      rw [← he2]
    rw [hpe]
    exact he
  case isFalse => cases hcond

theorem isChildOf_spec {p dir : Path} (h : isChildOf p dir = true) :
    p.length = dir.length + 1 ∧ parentOf p = dir := by
  have hb := h
  unfold isChildOf at hb
  have hl : (p.length == dir.length + 1) = true := Bool.and_elim_left hb
  have ht : (p.take dir.length == dir) = true := Bool.and_elim_right hb
  have h1 : p.length = dir.length + 1 := eq_of_beq hl
  have h2 : p.take dir.length = dir := eq_of_beq ht
  refine ⟨h1, ?_⟩
  rw [parentOf, List.dropLast_eq_take, h1]
  simpa using h2

/-- Claim C2 (amended): the completeness check computes the
TargetDirectory from the source track and model name and returns true
exactly when that directory exists and every name in the stem set exists
as a filesystem entry of any kind (the source tests `Path.exists`, which
does not require a regular file) directly under it. -/
theorem C2_checker_counts_any_entry (fs : FS) (container : Path)
    (model_name : String) (stems : List String) (track : Path) :
    is_complete fs container model_name stems track = true ↔
      (fs.existsPath (targetDir container model_name track) = true ∧
       ∀ s ∈ stems,
         fs.existsPath (targetDir container model_name track ++ [s]) = true) :=
  is_complete_iff fs container model_name stems track

/-- A filesystem in which every expected stem name of `<d>/t.mp3` exists
under the target directory, but as a directory rather than a regular
file. -/
def fsStemDirs : FS :=
  ⟨[(["d"], FType.dir),
    (["d", "t.mp3"], FType.file),
    (["d", "htdemucs"], FType.dir),
    (["d", "htdemucs", "t"], FType.dir),
    (["d", "htdemucs", "t", "vocals.mp3"], FType.dir),
    (["d", "htdemucs", "t", "drums.mp3"], FType.dir),
    (["d", "htdemucs", "t", "bass.mp3"], FType.dir),
    (["d", "htdemucs", "t", "other.mp3"], FType.dir)]⟩

/-- Counterexample to claim C2 as stated: on `fsStemDirs` the source's
completeness check returns true although no stem name exists as a regular
file under the target directory, so the check does not coincide with the
claim's "exists as a regular file" predicate. -/
theorem C2_counterexample :
    is_complete fsStemDirs ["d"] "htdemucs" STEMS_4 ["d", "t.mp3"] = true ∧
    completeAsRegularFiles fsStemDirs ["d"] "htdemucs" STEMS_4 ["d", "t.mp3"] =
      false := by
  decide

/-- Claim C5: the StemSet/ModelName pair is selected solely by the
`--stems` flag (argparse restricts it to 4 or 6, default 6): 4 picks the
4-name set with model id "htdemucs", 6 picks the 6-name set with model id
"htdemucs_6s", and no other pair is ever produced. -/
theorem C5_one_pair_per_run (n : Nat) (h : n = 4 ∨ n = 6) :
    (n = 4 → pickModel n = (STEMS_4, "htdemucs") ∧ STEMS_4.length = 4) ∧
    (n = 6 → pickModel n = (STEMS_6, "htdemucs_6s") ∧ STEMS_6.length = 6) ∧
    (pickModel n = (STEMS_4, "htdemucs") ∨
     pickModel n = (STEMS_6, "htdemucs_6s")) := by
  rcases h with h | h <;> subst h <;> refine ⟨?_, ?_, ?_⟩ <;> decide

/-- Witness for C5 at both admissible flag values. -/
theorem C5_one_pair_per_run_witness :
    (pickModel 4 = (STEMS_4, "htdemucs") ∧ STEMS_4.length = 4) ∧
    (pickModel 6 = (STEMS_6, "htdemucs_6s") ∧ STEMS_6.length = 6) :=
  ⟨(C5_one_pair_per_run 4 (Or.inl rfl)).1 rfl,
   (C5_one_pair_per_run 6 (Or.inr rfl)).2.1 rfl⟩

/-- Claim C3: when the tool exits non-zero on the k-th track of a batch,
the Invoker still attempts every track of the batch (in input order, so in
particular every track after k), and logs exactly one error for track k;
the batch is never aborted. -/
theorem C3_batch_isolation (exitOk : List String → Bool) (mp3_files : List Path)
    (out_dir : Path) (demucs_cmd : List String) (device model_name : String)
    (k : Nat) (hk : k < mp3_files.length)
    (hfail : exitOk (mkDemucsCmd demucs_cmd (mp3_files.get ⟨k, hk⟩) device
      model_name out_dir) = false)
    (hnodup : mp3_files.Nodup) :
    runTracks (run_demucs exitOk mp3_files out_dir demucs_cmd device model_name) =
      mp3_files ∧
    (failsOf (run_demucs exitOk mp3_files out_dir demucs_cmd device
      model_name)).count (mp3_files.get ⟨k, hk⟩) = 1 := by
  refine ⟨runTracks_run_demucs exitOk mp3_files out_dir demucs_cmd device model_name, ?_⟩
  rw [failsOf_run_demucs]
  refine count_one_of_nodup_mem (hnodup.filter _) ?_
  rw [List.mem_filter]
  exact ⟨List.get_mem mp3_files k hk, by rw [hfail]; rfl⟩

/-- Witness for C3 at a concrete two-track batch whose first track's
invocation fails: both tracks are attempted and exactly one error is
logged for the failing one. -/
theorem C3_batch_isolation_witness :
    runTracks (run_demucs (fun _ => false) [["d", "a.mp3"], ["d", "b.mp3"]]
        ["d"] ["demucs"] "cpu" "htdemucs") = [["d", "a.mp3"], ["d", "b.mp3"]] ∧
    (failsOf (run_demucs (fun _ => false) [["d", "a.mp3"], ["d", "b.mp3"]]
        ["d"] ["demucs"] "cpu" "htdemucs")).count ["d", "a.mp3"] = 1 :=
  C3_batch_isolation (fun _ => false) [["d", "a.mp3"], ["d", "b.mp3"]]
    ["d"] ["demucs"] "cpu" "htdemucs" 0 (by decide) rfl (by decide)

theorem runsOf_flatten (L : List (List Event)) :
    runsOf L.flatten = (L.map runsOf).flatten := by
  induction L with
  | nil => rfl
  | cons a rest ih =>
    simp only [List.flatten_cons, runsOf_append, ih, List.map_cons]

theorem runsOf_sweepFolder_mem (fs : FS) (exitOk : List String → Bool)
    (demucs_cmd : List String) (device : String) (stems : List String)
    (model_name : String) (folder : Path) (t : Path) (c : List String)
    (h : (t, c) ∈ runsOf (sweepFolder fs exitOk demucs_cmd device stems
      model_name folder)) :
    t ∈ globMp3 fs folder ∧
    is_complete fs folder model_name stems t = false ∧
    c = mkDemucsCmd demucs_cmd t device model_name folder := by
  simp only [sweepFolder] at h
  split at h
  · simp [runsOf] at h
  · split at h
    · simp [runsOf] at h
    · have h2 : (t, c) ∈ runsOf (run_demucs exitOk
        ((globMp3 fs folder).filter
          (fun m => !is_complete fs folder model_name stems m))
        folder demucs_cmd device model_name) := h
      rw [runsOf_run_demucs] at h2
      rcases List.mem_map.mp h2 with ⟨m, hm, he⟩
      rcases List.mem_filter.mp hm with ⟨hmem, hninc⟩
      injection he with he1 he2
      subst he1
      subst he2
      exact ⟨hmem, by simpa using hninc, rfl⟩

theorem sweepFolder_no_mp3s (fs : FS) (exitOk : List String → Bool)
    (demucs_cmd : List String) (device : String) (stems : List String)
    (model_name : String) (folder : Path)
    (h : globMp3 fs folder = []) :
    sweepFolder fs exitOk demucs_cmd device stems model_name folder = [] := by
  unfold sweepFolder
  rw [h]
  rfl

theorem runsOf_sweep_mem (fs : FS) (exitOk : List String → Bool) (base : Path)
    (demucs_cmd : List String) (device : String) (stems : List String)
    (model_name : String) (t : Path) (c : List String)
    (h : (t, c) ∈ runsOf (sweep_directories fs exitOk base demucs_cmd device
      stems model_name)) :
    ∃ folder, folder ∈ dirChildren fs base ∧ t ∈ globMp3 fs folder ∧
      is_complete fs folder model_name stems t = false ∧
      c = mkDemucsCmd demucs_cmd t device model_name folder := by
  unfold sweep_directories at h
  rw [runsOf_flatten, List.map_map] at h
  rcases List.mem_flatten.mp h with ⟨l, hl, hne⟩
  rcases List.mem_map.mp hl with ⟨folder, hfolder, hfl⟩
  subst hfl
  have h3 := runsOf_sweepFolder_mem fs exitOk demucs_cmd device stems
    model_name folder t c hne
  exact ⟨folder, hfolder, h3⟩

/-- Claim C8 (amended): the Directory Sweeper only considers immediate
child directories of the swept base: a path nested two or more levels
below the base is never one of the iterated candidate folders, every
separation invocation the sweep produces is for a track directly inside
such an immediate child, and a child directory containing zero entries
named `*.mp3` (of any kind — the source globs by name) contributes no
invocation, no error and no log line at all. -/
theorem C8_sweeper_one_level_only (fs : FS) (exitOk : List String → Bool)
    (base : Path) (demucs_cmd : List String) (device : String)
    (stems : List String) (model_name : String) (d : Path)
    (hdeep : base.length + 2 ≤ d.length) :
    d ∉ dirChildren fs base ∧
    (∀ folder, globMp3 fs folder = [] →
      sweepFolder fs exitOk demucs_cmd device stems model_name folder = []) ∧
    (∀ t c, (t, c) ∈ runsOf (sweep_directories fs exitOk base demucs_cmd
        device stems model_name) →
      parentOf t ∈ dirChildren fs base ∧ t.length = base.length + 2) := by
  refine ⟨?_, ?_, ?_⟩
  · intro hd
    have h1 := (isChildOf_spec (mem_dirChildren hd).1).1
    omega
  · exact fun folder hf =>
      sweepFolder_no_mp3s fs exitOk demucs_cmd device stems model_name folder hf
  · intro t c h
    rcases runsOf_sweep_mem fs exitOk base demucs_cmd device stems model_name
      t c h with ⟨folder, hfolder, hmem, _, _⟩
    rcases mem_globMp3.mp hmem with ⟨k, _, hchild, _⟩
    rcases isChildOf_spec hchild with ⟨hlen, hpar⟩
    rcases isChildOf_spec (mem_dirChildren hfolder).1 with ⟨hflen, _⟩
    subst hpar
    exact ⟨hfolder, by omega⟩

/-- A base directory whose only child `a` contains a single `*.mp3`-named
entry that is a directory, not a regular file: the child holds zero audio
files, but the sweep's `glob("*.mp3")` still matches the entry by name. -/
def fsDirOnlyMp3 : FS :=
  ⟨[(["a"], FType.dir),
    (["a", "x.mp3"], FType.dir)]⟩

/-- Counterexample to claim C8 as stated: on `fsDirOnlyMp3` the child
directory `a` contains zero audio files (no regular `.mp3` file), yet the
sweep does not skip it — the completeness check for the directory-typed
entry `a/x.mp3` fails, the separation tool is invoked once on it, and one
error is logged when the tool exits non-zero. -/
theorem C8_counterexample :
    mp3FilesIn fsDirOnlyMp3 ["a"] = [] ∧
    runTracks (sweep_directories fsDirOnlyMp3 (fun _ => false) [] ["demucs"]
      "cpu" STEMS_6 "htdemucs_6s") = [["a", "x.mp3"]] ∧
    failsOf (sweep_directories fsDirOnlyMp3 (fun _ => false) [] ["demucs"]
      "cpu" STEMS_6 "htdemucs_6s") = [["a", "x.mp3"]] := by
  decide

/-- A base directory with one child `a` holding a track, a grandchild
directory `a/b`, and a great-grandchild `a/b/c`; used to witness C8. -/
def fsNested : FS :=
  ⟨[(["a"], FType.dir),
    (["a", "t.mp3"], FType.file),
    (["a", "b"], FType.dir),
    (["a", "b", "c"], FType.dir),
    (["e"], FType.dir)]⟩

/-- Witness for C8 on `fsNested` with base the root: the grandchild
`a/b` is not iterated, the empty child `e` contributes nothing, and every
invocation is for a track directly inside an immediate child. -/
theorem C8_sweeper_one_level_only_witness :
    ["a", "b"] ∉ dirChildren fsNested [] ∧
    (∀ folder, globMp3 fsNested folder = [] →
      sweepFolder fsNested (fun _ => true) ["demucs"] "cpu" STEMS_6
        "htdemucs_6s" folder = []) ∧
    (∀ t c, (t, c) ∈ runsOf (sweep_directories fsNested (fun _ => true) []
        ["demucs"] "cpu" STEMS_6 "htdemucs_6s") →
      parentOf t ∈ dirChildren fsNested [] ∧ t.length = 0 + 2) :=
  C8_sweeper_one_level_only fsNested (fun _ => true) [] ["demucs"] "cpu"
    STEMS_6 "htdemucs_6s" ["a", "b"] (by decide)

/-- A download directory holding one entry named `x.mp3` that is a
directory, not a regular file (for the C4 counterexample: `glob` matches
it by name). -/
def fsDirNamedMp3 : FS :=
  ⟨[(["downloads"], FType.dir),
    (["downloads", "x.mp3"], FType.dir)]⟩

/-- Counterexample to claim C4 as stated: `download_audio` inventories
`outputDir` with `glob("*.mp3")`, which matches entries by name only, so
on `fsDirNamedMp3` it returns the directory `downloads/x.mp3` although the
list of regular files with the target extension in `outputDir` is empty —
the returned list is not "exactly the list of files" of that extension. -/
theorem C4_counterexample :
    download_audio fsDirNamedMp3 ["u"] ["downloads"] ≠
      mp3FilesIn fsDirNamedMp3 ["downloads"] := by
  decide

/-- Claim C4 (amended): `download_audio` returns exactly the directory
entries (of any kind — `glob` matches names, not file types) with the
`.mp3` extension directly in `outputDir` as it stands after the external
call; in particular, when the external call only adds entries, every
pre-existing `.mp3` file already in `outputDir` before the call is
included in the returned list. -/
theorem C4_download_returns_post_call_inventory (fsBefore fsAfter : FS)
    (urls : List String) (out_dir p : Path)
    (hgrow : ∀ e, e ∈ fsBefore.entries → e ∈ fsAfter.entries) :
    (p ∈ download_audio fsAfter urls out_dir ↔
      ∃ k, (p, k) ∈ fsAfter.entries ∧ isChildOf p out_dir = true ∧
        matchesMp3 (lastName p) = true) ∧
    ((p, FType.file) ∈ fsBefore.entries → isChildOf p out_dir = true →
      matchesMp3 (lastName p) = true → p ∈ download_audio fsAfter urls out_dir) := by
  constructor
  · exact mem_globMp3
  · intro hpre hchild hmatch
    exact mem_globMp3.mpr ⟨FType.file, hgrow _ hpre, hchild, hmatch⟩

/-- A pre-call download directory holding one old track, and the post-call
state where the external engine added one new track. -/
def fsPre : FS :=
  ⟨[(["downloads"], FType.dir),
    (["downloads", "old.mp3"], FType.file)]⟩

def fsPost : FS :=
  ⟨[(["downloads"], FType.dir),
    (["downloads", "old.mp3"], FType.file),
    (["downloads", "new.mp3"], FType.file)]⟩

/-- Witness for C4: after a call that added `new.mp3`, the pre-existing
`old.mp3` is included in the returned list. -/
theorem C4_download_returns_post_call_inventory_witness :
    (["downloads", "old.mp3"] ∈ download_audio fsPost ["u"] ["downloads"] ↔
      ∃ k, (["downloads", "old.mp3"], k) ∈ fsPost.entries ∧
        isChildOf ["downloads", "old.mp3"] ["downloads"] = true ∧
        matchesMp3 (lastName ["downloads", "old.mp3"]) = true) ∧
    ((["downloads", "old.mp3"], FType.file) ∈ fsPre.entries →
      isChildOf ["downloads", "old.mp3"] ["downloads"] = true →
      matchesMp3 (lastName ["downloads", "old.mp3"]) = true →
      ["downloads", "old.mp3"] ∈ download_audio fsPost ["u"] ["downloads"]) :=
  C4_download_returns_post_call_inventory fsPre fsPost ["u"] ["downloads"]
    ["downloads", "old.mp3"] (by decide)

/-- Claim C10: the downloader's post-call inventory is non-recursive:
every returned path is directly inside the output directory, and a path
nested two or more levels below it (such as a stem output under
`<outputDir>/<ModelName>/<track>/`) is never in the returned list. -/
theorem C10_inventory_is_nonrecursive (fs : FS) (urls : List String)
    (out_dir p : Path) (hp : p ∈ download_audio fs urls out_dir) :
    p.length = out_dir.length + 1 ∧ parentOf p = out_dir ∧
    ∀ q : Path, out_dir.length + 2 ≤ q.length →
      q ∉ download_audio fs urls out_dir := by
  rcases mem_globMp3.mp hp with ⟨k, _, hchild, _⟩
  rcases isChildOf_spec hchild with ⟨hlen, hpar⟩
  refine ⟨hlen, hpar, ?_⟩
  intro q hq hmem
  rcases mem_globMp3.mp hmem with ⟨k2, _, hchild2, _⟩
  rcases isChildOf_spec hchild2 with ⟨hlen2, _⟩
  omega

/-- A post-call state where a stem output `downloads/htdemucs_6s/t/vocals.mp3`
exists two levels below the download directory; used to witness C10. -/
def fsWithStems : FS :=
  ⟨[(["downloads"], FType.dir),
    (["downloads", "t.mp3"], FType.file),
    (["downloads", "htdemucs_6s"], FType.dir),
    (["downloads", "htdemucs_6s", "t"], FType.dir),
    (["downloads", "htdemucs_6s", "t", "vocals.mp3"], FType.file)]⟩

/-- Witness for C10 on `fsWithStems`: the returned `downloads/t.mp3` is a
direct child of the download directory, and nothing nested deeper (such as
the stem file) is ever returned. -/
theorem C10_inventory_is_nonrecursive_witness :
    (["downloads", "t.mp3"] : Path).length = (["downloads"] : Path).length + 1 ∧
    parentOf ["downloads", "t.mp3"] = ["downloads"] ∧
    ∀ q : Path, (["downloads"] : Path).length + 2 ≤ q.length →
      q ∉ download_audio fsWithStems ["u"] ["downloads"] :=
  C10_inventory_is_nonrecursive fsWithStems ["u"] ["downloads"]
    ["downloads", "t.mp3"] (by decide)

theorem runsOf_filterMap_info (l : List Path) (f : Path → Bool)
    (g : Path → String) :
    runsOf (l.filterMap (fun m => if f m then some (Event.info (g m)) else none)) =
      [] := by
  induction l with
  | nil => rfl
  | cons x xs ih =>
    rw [List.filterMap_cons]
    cases hf : f x
    · simpa [hf] using ih
    · simpa [hf, runsOf] using ih

theorem runsOf_splitStep_mem (fs : FS) (exitOk : List String → Bool)
    (download_dir : Path) (demucs_cmd : List String) (device : String)
    (stems : List String) (model_name : String) (mp3_list : List Path)
    (t : Path) (c : List String)
    (h : (t, c) ∈ runsOf (splitStep fs exitOk download_dir demucs_cmd device
      stems model_name mp3_list)) :
    t ∈ mp3_list ∧ is_complete fs download_dir model_name stems t = false ∧
    c = mkDemucsCmd demucs_cmd t device model_name download_dir := by
  simp only [splitStep] at h
  rw [runsOf_append] at h
  rcases List.mem_append.mp h with h | h
  · rw [runsOf_filterMap_info] at h
    cases h
  · split at h
    · cases h
    · rw [runsOf_run_demucs] at h
      rcases List.mem_map.mp h with ⟨m, hm, he⟩
      rcases List.mem_filter.mp hm with ⟨hmem, hninc⟩
      injection he with he1 he2
      subst he1
      subst he2
      exact ⟨hmem, by simpa using hninc, rfl⟩

/-- Every separation-tool invocation `main` produces uses the run's single
demucs invocation form, device and model, writes into the parent directory
of its track, and is for a track whose completeness check failed on the
snapshot that was consulted (the sweep-time one or the post-download
one). -/
theorem runsOf_main_mem (args : Args) (env : Env) (t : Path) (c : List String)
    (h : (t, c) ∈ runsOf (main args env).2) :
    c = mkDemucsCmd (demucsCmdOf env) t (pickDevice args.cpu env.hasCuda)
        (pickModel args.stems).2 (parentOf t) ∧
    (is_complete env.fs0 (parentOf t) (pickModel args.stems).2
        (pickModel args.stems).1 t = false ∨
     is_complete env.fsDl (parentOf t) (pickModel args.stems).2
        (pickModel args.stems).1 t = false) := by
  unfold main at h
  split at h
  · simp [runsOf] at h
  · simp only [runsOf_append, List.mem_append] at h
    rcases h with (((((h | h) | h) | h) | h) | h) | h
    · rcases hd : env.demucs with _ | d <;> simp [hd, runsOf] at h
    · simp [runsOf] at h
    · -- the sweep segment
      split at h
      case isFalse => cases h
      case isTrue =>
        rcases runsOf_sweep_mem env.fs0 env.exitOk env.cwd (demucsCmdOf env)
          (pickDevice args.cpu env.hasCuda) (pickModel args.stems).1
          (pickModel args.stems).2 t c h with ⟨folder, _, hmem, hninc, hcmd⟩
        rcases mem_globMp3.mp hmem with ⟨k, _, hchild, _⟩
        have hpar := (isChildOf_spec hchild).2
        rw [← hpar] at hcmd hninc
        exact ⟨hcmd, Or.inl hninc⟩
    · simp [runsOf] at h
    · -- the split segment
      split at h
      case isFalse => cases h
      case isTrue =>
        rcases runsOf_splitStep_mem env.fsDl env.exitOk (env.cwd ++ ["downloads"])
          (demucsCmdOf env) (pickDevice args.cpu env.hasCuda)
          (pickModel args.stems).1 (pickModel args.stems).2
          (download_audio env.fsDl args.urls (env.cwd ++ ["downloads"])) t c h with
          ⟨hmem, hninc, hcmd⟩
        rcases mem_globMp3.mp hmem with ⟨k, _, hchild, _⟩
        have hpar := (isChildOf_spec hchild).2
        rw [← hpar] at hcmd hninc
        exact ⟨hcmd, Or.inr hninc⟩
    · split at h <;> simp [runsOf] at h
    · simp [runsOf] at h

/-- Claim C1: a track whose TargetDirectory already contains every name of
the active StemSet (on the snapshot the sweep reads and on the snapshot
the post-download check reads) passes the completeness check, and neither
the Orchestrator's split step nor the Sweeper invokes the separation tool
for it — re-running the program is a no-op for that track. -/
theorem C1_complete_track_is_noop (args : Args) (env : Env)
    (stems : List String) (model_name : String) (mp3 : Path)
    (hpick : pickModel args.stems = (stems, model_name))
    (h0dir : env.fs0.existsPath (targetDir (parentOf mp3) model_name mp3) = true)
    (h0 : ∀ s ∈ stems,
      env.fs0.existsPath (targetDir (parentOf mp3) model_name mp3 ++ [s]) = true)
    (h1dir : env.fsDl.existsPath (targetDir (parentOf mp3) model_name mp3) = true)
    (h1 : ∀ s ∈ stems,
      env.fsDl.existsPath (targetDir (parentOf mp3) model_name mp3 ++ [s]) = true) :
    is_complete env.fs0 (parentOf mp3) model_name stems mp3 = true ∧
    is_complete env.fsDl (parentOf mp3) model_name stems mp3 = true ∧
    mp3 ∉ runTracks (main args env).2 := by
  have hc0 : is_complete env.fs0 (parentOf mp3) model_name stems mp3 = true :=
    (is_complete_iff _ _ _ _ _).mpr ⟨h0dir, h0⟩
  have hc1 : is_complete env.fsDl (parentOf mp3) model_name stems mp3 = true :=
    (is_complete_iff _ _ _ _ _).mpr ⟨h1dir, h1⟩
  refine ⟨hc0, hc1, ?_⟩
  intro hmem
  unfold runTracks at hmem
  rcases List.mem_map.mp hmem with ⟨⟨t, c⟩, hin, ht⟩
  dsimp at ht
  subst ht
  have h2 := (runsOf_main_mem args env _ c hin).2
  rw [hpick] at h2
  rcases h2 with h2 | h2
  · exact Bool.noConfusion (hc0.symm.trans h2)
  · exact Bool.noConfusion (hc1.symm.trans h2)

/-- A fully-processed downloads directory: `t.mp3` with all four stems of
the 4-stem model present as files; used to witness C1. -/
def fsDone : FS :=
  ⟨[(["downloads"], FType.dir),
    (["downloads", "t.mp3"], FType.file),
    (["downloads", "htdemucs"], FType.dir),
    (["downloads", "htdemucs", "t"], FType.dir),
    (["downloads", "htdemucs", "t", "vocals.mp3"], FType.file),
    (["downloads", "htdemucs", "t", "drums.mp3"], FType.file),
    (["downloads", "htdemucs", "t", "bass.mp3"], FType.file),
    (["downloads", "htdemucs", "t", "other.mp3"], FType.file)]⟩

def argsDone : Args :=
  { urls := ["u"], sweep := true, split := true, cpu := true, stems := 4 }

def envDone : Env :=
  { cwd := [], ffmpeg := some ["usr", "bin", "ffmpeg"],
    demucs := some ["usr", "bin", "demucs"], pythonExe := "python3",
    hasCuda := false, fs0 := fsDone, fsDl := fsDone, exitOk := fun _ => true }

/-- Witness for C1: in a run with `--sweep --split --stems 4` over a state
where `downloads/t.mp3` already has all four stems, the completeness check
holds and the separation tool is never invoked on that track. -/
theorem C1_complete_track_is_noop_witness :
    is_complete fsDone (parentOf ["downloads", "t.mp3"]) "htdemucs" STEMS_4
      ["downloads", "t.mp3"] = true ∧
    is_complete fsDone (parentOf ["downloads", "t.mp3"]) "htdemucs" STEMS_4
      ["downloads", "t.mp3"] = true ∧
    ["downloads", "t.mp3"] ∉ runTracks (main argsDone envDone).2 :=
  C1_complete_track_is_noop argsDone envDone STEMS_4 "htdemucs"
    ["downloads", "t.mp3"] (by decide) (by decide) (by decide) (by decide)
    (by decide)

/-- Claim C6: with the forced-CPU flag the ProcessingDevice is CPU even
when acceleration is available; without it and with acceleration
available it is GPU; and the selected device is the one in every
separation-tool command line of the run. -/
theorem C6_device_selection_passed_through (args : Args) (env : Env) :
    (args.cpu = true → pickDevice args.cpu env.hasCuda = "cpu") ∧
    (args.cpu = false → env.hasCuda = true →
      pickDevice args.cpu env.hasCuda = "cuda") ∧
    (∀ t c, (t, c) ∈ runsOf (main args env).2 →
      c = mkDemucsCmd (demucsCmdOf env) t (pickDevice args.cpu env.hasCuda)
        (pickModel args.stems).2 (parentOf t)) := by
  refine ⟨?_, ?_, ?_⟩
  · intro h
    rw [h]
    rfl
  · intro h1 h2
    rw [h1, h2]
    rfl
  · intro t c h
    exact (runsOf_main_mem args env t c h).1

/-- Claim C7: a missing transcoding tool (ffmpeg) is fatal — the process
exits with status 1 after only the two diagnostics, never reaching the
download call — while a missing separation tool is not: the run completes
with status 0 and every separation invocation uses the module fallback
`[sys.executable, "-m", "demucs"]`. -/
theorem C7_ffmpeg_fatal_demucs_fallback (args : Args) (env : Env) :
    (env.ffmpeg = none →
      main args env = (1, [Event.warn "ffmpeg not found in PATH",
        Event.error "ffmpeg is required. Please install ffmpeg."]) ∧
      hasDownloadCall (main args env).2 = false) ∧
    (∀ f : Path, env.ffmpeg = some f → env.demucs = none →
      (main args env).1 = 0 ∧
      demucsCmdOf env = [env.pythonExe, "-m", "demucs"] ∧
      ∀ t c, (t, c) ∈ runsOf (main args env).2 →
        c = mkDemucsCmd [env.pythonExe, "-m", "demucs"] t
          (pickDevice args.cpu env.hasCuda) (pickModel args.stems).2
          (parentOf t)) := by
  constructor
  · intro hff
    have hm : main args env = (1, [Event.warn "ffmpeg not found in PATH",
        Event.error "ffmpeg is required. Please install ffmpeg."]) := by
      unfold main
      rw [hff]
    refine ⟨hm, ?_⟩
    rw [hm]
    rfl
  · intro f hff hd
    have hcmd : demucsCmdOf env = [env.pythonExe, "-m", "demucs"] := by
      unfold demucsCmdOf
      rw [hd]
    refine ⟨?_, hcmd, ?_⟩
    · unfold main
      rw [hff]
    · intro t c h
      have h1 := (runsOf_main_mem args env t c h).1
      rw [hcmd] at h1
      exact h1

end CV
